import Mathlib

/-!
Verification of the boxdrive object store core: the `ListFilter` family in
`src/boxdrive/stores/_utils.py`, the in-memory store in
`src/boxdrive/stores/inmemory.py`, the GitLab-backed store in
`src/boxdrive/stores/gitlab/store.py`, and the `Keysmith` coordination
primitive in `src/boxdrive/_keysmith.py`.

Python strings are modelled as `List Char` (a Python `str` is a sequence of
code points, compared lexicographically by code point, which is exactly the
order of `List Char` under Mathlib's lexicographic linear order).
-/

namespace Boxdrive

abbrev Str := List Char

def ValidKey (k : Str) : Prop := k ≠ []

def strTruthy : Option Str → Bool
  | none => false
  | some s => !s.isEmpty

def optStr (s : Option Str) : Str := s.getD []

def pyOr (a b : Option Str) : Option Str := if strTruthy a then a else b

structure ObjectInfo where
  key : Str
  etag : Str
  size : Nat
  last_modified : Int
  content_type : Str
deriving DecidableEq

structure ListObjectsInfo where
  objects : List ObjectInfo
  common_prefixes : List Str
  is_truncated : Bool
  next_marker : Str
deriving DecidableEq

structure ListObjectsV2Info where
  objects : List ObjectInfo
  common_prefixes : List Str
  is_truncated : Bool
deriving DecidableEq

def findSub (needle : Str) : Str → Option Nat
  | [] => if needle.isPrefixOf [] then some 0 else none
  | c :: t =>
    if needle.isPrefixOf (c :: t) then some 0
    else (findSub needle t).map (· + 1)

def keyLe (a b : ObjectInfo) : Prop := a.key ≤ b.key

instance : DecidableRel keyLe := fun a b => inferInstanceAs (Decidable (a.key ≤ b.key))

instance : IsTotal ObjectInfo keyLe := ⟨fun a b => le_total a.key b.key⟩

instance : IsTrans ObjectInfo keyLe := ⟨fun _ _ _ h1 h2 => le_trans h1 h2⟩

def pfxFiltered (objs : List ObjectInfo) (pfx : Option Str) : List ObjectInfo :=
  if strTruthy pfx then objs.filter (fun o => (optStr pfx).isPrefixOf o.key) else objs

def sortedByKey (objs : List ObjectInfo) : List ObjectInfo :=
  objs.insertionSort keyLe

def cursorSkipped (objs : List ObjectInfo) (cursor : Option Str) : List ObjectInfo :=
  if strTruthy cursor then objs.filter (fun o => optStr cursor < o.key) else objs

def filteredObjects (objs : List ObjectInfo) (pfx cursor : Option Str) : List ObjectInfo :=
  cursorSkipped (sortedByKey (pfxFiltered objs pfx)) cursor

def keptObjects (objs : List ObjectInfo) (pfx cursor : Option Str) (max_keys : Nat) :
    List ObjectInfo :=
  (filteredObjects objs pfx cursor).take max_keys

def rollupOf (plen : Nat) (d : Str) (o : ObjectInfo) : Option Str :=
  (findSub d (o.key.drop plen)).map (fun idx => o.key.take (plen + idx + d.length))

def _split_contents_and_prefixes (objs : List ObjectInfo) (pfx delim : Option Str) :
    List ObjectInfo × List Str :=
  if !strTruthy delim then (objs, [])
  else
    let p := optStr pfx
    let d := optStr delim
    let contents := objs.filter (fun o => (findSub d (o.key.drop p.length)).isNone)
    let cps := objs.filterMap (rollupOf p.length d)
    (contents, cps.dedup.insertionSort (· ≤ ·))

def hexDigit (n : Nat) : Char :=
  if n < 10 then Char.ofNat (48 + n) else Char.ofNat (55 + n)

def utf8Bytes (c : Char) : List Nat :=
  let n := c.toNat
  if n < 128 then [n]
  else if n < 2048 then [192 + n / 64, 128 + n % 64]
  else if n < 65536 then [224 + n / 4096, 128 + (n / 64) % 64, 128 + n % 64]
  else [240 + n / 262144, 128 + (n / 4096) % 64, 128 + (n / 64) % 64, 128 + n % 64]

def pctByte (b : Nat) : Str := ['%', hexDigit (b / 16), hexDigit (b % 16)]

def isSafeChar (c : Char) : Bool :=
  c.isAlphanum || c = '-' || c = '_' || c = '.' || c = '~' || c = '/' || c = '*'

def quoteChar (c : Char) : Str :=
  if isSafeChar c then [c] else (utf8Bytes c).flatMap pctByte

def pyQuote (s : Str) : Str := s.flatMap quoteChar

def _encode_keys_and_prefixes (objs : List ObjectInfo) (cps : List Str)
    (encoding_type : Option Str) : List ObjectInfo × List Str :=
  if encoding_type = some "url".data then
    (objs.map (fun o => { o with key := pyQuote o.key }), cps.map pyQuote)
  else (objs, cps)

def v1NextMarker (contents : List ObjectInfo) (cps : List Str) : Str :=
  match cps.getLast? with
  | some s => s
  | none =>
    match contents.getLast? with
    | some o => o.key
    | none => []

def filter_objects (objs : List ObjectInfo) (pfx delim : Option Str) (max_keys : Nat)
    (marker encoding_type : Option Str) : ListObjectsInfo :=
  let filtered := filteredObjects objs pfx marker
  let is_truncated := decide (max_keys < filtered.length)
  let kept := filtered.take max_keys
  let split := _split_contents_and_prefixes kept pfx delim
  let enc := _encode_keys_and_prefixes split.1 split.2 encoding_type
  { objects := enc.1
    common_prefixes := enc.2
    is_truncated := is_truncated
    next_marker := if is_truncated then v1NextMarker enc.1 enc.2 else [] }

def filter_objects_v2 (objs : List ObjectInfo) (continuation_token delim : Option Str)
    (encoding_type : Option Str) (max_keys : Nat) (pfx start_after : Option Str) :
    ListObjectsV2Info :=
  let filtered := filteredObjects objs pfx (pyOr continuation_token start_after)
  let is_truncated := decide (max_keys < filtered.length)
  let kept := filtered.take max_keys
  let split := _split_contents_and_prefixes kept pfx delim
  let enc := _encode_keys_and_prefixes split.1 split.2 encoding_type
  { objects := enc.1
    common_prefixes := enc.2
    is_truncated := is_truncated }

def DEFAULT_CONTENT_TYPE : Str := "application/octet-stream".data

inductive StoreErr where
  | noSuchBucket
  | noSuchKey
  | bucketAlreadyExists
  | invalidArgument
  | remoteError (status : Nat)
deriving DecidableEq

structure MemObject where
  data : List Nat
  metadata : ObjectInfo

structure MemBucket where
  name : Str
  creation_date : Int
  objects : Str → Option MemObject

structure InMemoryStore where
  buckets : Str → Option MemBucket

namespace InMemoryStore

def create_bucket (s : InMemoryStore) (bucket_name : Str) (now : Int) :
    Except StoreErr InMemoryStore :=
  if (s.buckets bucket_name).isSome then .error .bucketAlreadyExists
  else .ok ⟨Function.update s.buckets bucket_name
    (some { name := bucket_name, creation_date := now, objects := fun _ => none })⟩

def put_object (md5hex : List Nat → Str) (s : InMemoryStore) (bucket_name key : Str)
    (data : List Nat) (content_type : Option Str) (now : Int) : InMemoryStore × Str :=
  let s1 := if (s.buckets bucket_name).isNone then
      { buckets := Function.update s.buckets bucket_name
          (some { name := bucket_name, creation_date := now, objects := fun _ => none }) }
    else s
  let bucket := (s1.buckets bucket_name).getD
    { name := bucket_name, creation_date := now, objects := fun _ => none }
  let etag := md5hex data
  let fct := if strTruthy content_type then optStr content_type else DEFAULT_CONTENT_TYPE
  let metadata : ObjectInfo :=
    { key := key, size := data.length, last_modified := now, etag := etag, content_type := fct }
  let bucket1 := { bucket with objects := (Function.update bucket.objects key
      (some { data := data, metadata := metadata })) }
  ({ buckets := Function.update s1.buckets bucket_name (some bucket1) }, etag)

def get_object (s : InMemoryStore) (bucket_name key : Str) : Option MemObject :=
  match s.buckets bucket_name with
  | none => none
  | some bucket => bucket.objects key

def head_object (s : InMemoryStore) (bucket_name key : Str) : Option ObjectInfo :=
  match s.buckets bucket_name with
  | none => none
  | some bucket => (bucket.objects key).map (·.metadata)

def delete_object (s : InMemoryStore) (bucket_name key : Str) :
    Except StoreErr InMemoryStore :=
  match s.buckets bucket_name with
  | none => .error .noSuchBucket
  | some bucket =>
    match bucket.objects key with
    | none => .error .noSuchKey
    | some _ => .ok { buckets := (Function.update s.buckets bucket_name
        (some { bucket with objects := Function.update bucket.objects key none })) }

end InMemoryStore

def MAX_PAGE : Nat := 10000

def MIN_PER_PAGE : Nat := 20

def _object_path (bucket key : Str) : Str := bucket ++ '/' :: key

def default_object_info (key : Str) : ObjectInfo :=
  { key := key, etag := [], size := 0, last_modified := 0,
    content_type := DEFAULT_CONTENT_TYPE }

def keys_to_objects (keys : List Str) : List ObjectInfo :=
  keys.map default_object_info

def listPerPage (max_keys : Nat) : Nat := max MIN_PER_PAGE max_keys

def fetchFrom (pageKeys : Nat → List Str) (totalPages : Nat → Nat)
    (is_enough : List Str → Bool) : Nat → Nat → List Str → List Str
  | _, 0, keys => keys
  | page, fuel + 1, keys =>
    if page = totalPages page then keys ++ pageKeys page
    else if is_enough (keys ++ pageKeys page) then keys ++ pageKeys page
    else fetchFrom pageKeys totalPages is_enough (page + 1) fuel (keys ++ pageKeys page)

def _fetch_object_keys (pageKeys : Nat → List Str) (totalPages : Nat → Nat)
    (is_enough : List Str → Bool) : List Str :=
  fetchFrom pageKeys totalPages is_enough 1 (MAX_PAGE - 1) []

def keysThrough (pageKeys : Nat → List Str) (p : Nat) : List Str :=
  (List.range' 1 p).flatMap pageKeys

def listV1Filter (placeholder : Str) (pfx delim : Option Str) (mk : Nat)
    (marker : Option Str) (objects : List ObjectInfo) : ListObjectsInfo :=
  filter_objects (objects.filter (fun o => o.key ≠ placeholder)) pfx delim mk marker none

def listV2Filter (placeholder : Str) (ct delim enc : Option Str) (mk : Nat)
    (pfx sa : Option Str) (objects : List ObjectInfo) : ListObjectsV2Info :=
  filter_objects_v2 (objects.filter (fun o => o.key ≠ placeholder)) ct delim enc mk pfx sa

def listV1IsEnough (placeholder : Str) (pfx delim : Option Str) (mk : Nat)
    (marker : Option Str) (keys : List Str) : Bool :=
  (listV1Filter placeholder pfx delim mk marker (keys_to_objects keys)).is_truncated

def listV2IsEnough (placeholder : Str) (ct delim enc : Option Str) (mk : Nat)
    (pfx sa : Option Str) (keys : List Str) : Bool :=
  (listV2Filter placeholder ct delim enc mk pfx sa (keys_to_objects keys)).is_truncated

inductive GetFileResp where
  | ok (content : List Nat)
  | notFound
  | other (status : Nat)
deriving DecidableEq

structure FileHead where
  gitlab_size : Nat
  gitlab_content_sha256 : Str
deriving DecidableEq

structure GitlabRemote where
  getFile : Str → GetFileResp
  createFile : Str → Nat
  deleteFile : Str → Nat
  headFile : Str → FileHead

inductive RemoteCall where
  | getF (path : Str)
  | createF (path : Str)
  | deleteF (path : Str)
  | headF (path : Str)
deriving DecidableEq

structure GitlabStore where
  placeholder_name : Str

structure StoreObject where
  data : List Nat
  info : ObjectInfo
deriving DecidableEq

namespace GitlabStore

def getUnguarded (sha256hex : List Nat → Str) (remote : GitlabRemote) (bucket key : Str)
    (now : Int) : Except StoreErr StoreObject × List RemoteCall :=
  match remote.getFile (_object_path bucket key) with
  | .ok data =>
    (.ok { data := data,
           info := { key := key, size := data.length, last_modified := now,
                     etag := sha256hex data, content_type := DEFAULT_CONTENT_TYPE } },
     [.getF (_object_path bucket key)])
  | .notFound => (.error .noSuchKey, [.getF (_object_path bucket key)])
  | .other st => (.error (.remoteError st), [.getF (_object_path bucket key)])

def get_object (store : GitlabStore) (sha256hex : List Nat → Str) (remote : GitlabRemote)
    (bucket key : Str) (now : Int) : Except StoreErr StoreObject × List RemoteCall :=
  if key = store.placeholder_name then (.error .noSuchKey, [])
  else getUnguarded sha256hex remote bucket key now

def headInfo (remote : GitlabRemote) (bucket key : Str) (now : Int) : ObjectInfo :=
  { key := key, size := (remote.headFile (_object_path bucket key)).gitlab_size,
    last_modified := now,
    etag := (remote.headFile (_object_path bucket key)).gitlab_content_sha256,
    content_type := DEFAULT_CONTENT_TYPE }

def head_object (store : GitlabStore) (remote : GitlabRemote) (bucket key : Str)
    (now : Int) : Except StoreErr ObjectInfo × List RemoteCall :=
  if key = store.placeholder_name then (.error .noSuchKey, [])
  else (.ok (headInfo remote bucket key now), [.headF (_object_path bucket key)])

def put_object (store : GitlabStore) (sha256hex : List Nat → Str) (remote : GitlabRemote)
    (bucket key : Str) (data : List Nat) (now : Int) :
    Except StoreErr ObjectInfo × List RemoteCall :=
  if key = store.placeholder_name then (.error .invalidArgument, [])
  else
    match remote.createFile (_object_path bucket key) with
    | 201 =>
      (.ok { key := key, size := data.length, last_modified := now,
             etag := sha256hex data, content_type := DEFAULT_CONTENT_TYPE },
       [.createF (_object_path bucket key)])
    | st => (.error (.remoteError st), [.createF (_object_path bucket key)])

def deleteUnguarded (remote : GitlabRemote) (bucket key : Str) :
    Except StoreErr Unit × List RemoteCall :=
  match remote.deleteFile (_object_path bucket key) with
  | 204 => (.ok (), [.deleteF (_object_path bucket key)])
  | 400 => (.ok (), [.deleteF (_object_path bucket key)])
  | st => (.error (.remoteError st), [.deleteF (_object_path bucket key)])

def delete_object (store : GitlabStore) (remote : GitlabRemote) (bucket key : Str) :
    Except StoreErr Unit × List RemoteCall :=
  if key = store.placeholder_name then (.ok (), [])
  else deleteUnguarded remote bucket key

def list_objects (store : GitlabStore) (remote : GitlabRemote)
    (pageKeys : Nat → List Str) (totalPages : Nat → Nat) (bucket : Str)
    (pfx delim : Option Str) (mk : Nat) (marker : Option Str) (now : Int) :
    ListObjectsInfo :=
  let keys := _fetch_object_keys pageKeys totalPages
    (listV1IsEnough store.placeholder_name pfx delim mk marker)
  let info := listV1Filter store.placeholder_name pfx delim mk marker (keys_to_objects keys)
  { info with objects := info.objects.map (fun o => headInfo remote bucket o.key now) }

def list_objects_v2 (store : GitlabStore) (remote : GitlabRemote)
    (pageKeys : Nat → List Str) (totalPages : Nat → Nat) (bucket : Str)
    (ct delim enc : Option Str) (mk : Nat) (pfx sa : Option Str) (now : Int) :
    ListObjectsV2Info :=
  let keys := _fetch_object_keys pageKeys totalPages
    (listV2IsEnough store.placeholder_name ct delim enc mk pfx sa)
  let info := listV2Filter store.placeholder_name ct delim enc mk pfx sa (keys_to_objects keys)
  { info with objects := info.objects.map (fun o => headInfo remote bucket o.key now) }

end GitlabStore

def sampleRemote : GitlabRemote :=
  { getFile := fun _ => .notFound
    createFile := fun _ => 201
    deleteFile := fun _ => 204
    headFile := fun _ => { gitlab_size := 0, gitlab_content_sha256 := [] } }

inductive KPC where
  | lStart (k : Str)
  | lHasMaster (k : Str)
  | lHasCv (k : Str)
  | lAdmitted (k : Str)
  | lWaitGuard (k : Str) (g : Nat)
  | lInCS (k : Str) (g : Nat)
  | lExitWantCv (k : Str) (g : Nat)
  | lExitHasCv (k : Str) (g : Nat)
  | lDone
  | aStart
  | aHasMaster
  | aHasCv
  | aWaiting
  | aInCS
  | aDone
deriving DecidableEq

structure KState (n : Nat) where
  master : Option (Fin n)
  cvLock : Option (Fin n)
  count : Nat
  gen : Nat
  guard : Nat → Str → Option (Fin n)
  pcs : Fin n → KPC

def inFlight : KPC → Bool
  | .lAdmitted _ | .lWaitGuard _ _ | .lInCS _ _ | .lExitWantCv _ _ | .lExitHasCv _ _ => true
  | _ => false

def holdsMaster : KPC → Bool
  | .lHasMaster _ | .lHasCv _ | .lAdmitted _ | .aHasMaster | .aHasCv | .aWaiting
  | .aInCS => true
  | _ => false

def holdsCv : KPC → Bool
  | .lHasCv _ | .lExitHasCv _ _ | .aHasCv => true
  | _ => false

def pastGate : KPC → Bool
  | .aHasMaster | .aHasCv | .aWaiting | .aInCS => true
  | _ => false

def inAdmission : KPC → Bool
  | .lHasMaster _ | .lHasCv _ | .lAdmitted _ => true
  | _ => false

def setGuard {n : Nat} (f : Nat → Str → Option (Fin n)) (g : Nat) (k : Str)
    (v : Option (Fin n)) : Nat → Str → Option (Fin n) :=
  fun g' k' => if g' = g ∧ k' = k then v else f g' k'

inductive KStep {n : Nat} : KState n → KState n → Prop where
  | acqMaster (s : KState n) (t : Fin n) (k : Str)
      (hpc : s.pcs t = .lStart k) (hm : s.master = none) :
      KStep s { s with master := some t, pcs := Function.update s.pcs t (.lHasMaster k) }
  | acqCv (s : KState n) (t : Fin n) (k : Str)
      (hpc : s.pcs t = .lHasMaster k) (hc : s.cvLock = none) :
      KStep s { s with cvLock := some t, pcs := Function.update s.pcs t (.lHasCv k) }
  | admitTask (s : KState n) (t : Fin n) (k : Str)
      (hpc : s.pcs t = .lHasCv k) :
      KStep s { s with
        gen := if s.count = 0 then s.gen + 1 else s.gen
        count := s.count + 1
        cvLock := none
        pcs := Function.update s.pcs t (.lAdmitted k) }
  | takeGuardRef (s : KState n) (t : Fin n) (k : Str)
      (hpc : s.pcs t = .lAdmitted k) :
      KStep s { s with master := none, pcs := Function.update s.pcs t (.lWaitGuard k s.gen) }
  | acqGuard (s : KState n) (t : Fin n) (k : Str) (g : Nat)
      (hpc : s.pcs t = .lWaitGuard k g) (hg : s.guard g k = none) :
      KStep s { s with guard := setGuard s.guard g k (some t)
                       pcs := Function.update s.pcs t (.lInCS k g) }
  | relGuard (s : KState n) (t : Fin n) (k : Str) (g : Nat)
      (hpc : s.pcs t = .lInCS k g) :
      KStep s { s with guard := setGuard s.guard g k none
                       pcs := Function.update s.pcs t (.lExitWantCv k g) }
  | exitAcqCv (s : KState n) (t : Fin n) (k : Str) (g : Nat)
      (hpc : s.pcs t = .lExitWantCv k g) (hc : s.cvLock = none) :
      KStep s { s with cvLock := some t, pcs := Function.update s.pcs t (.lExitHasCv k g) }
  | exitDec (s : KState n) (t : Fin n) (k : Str) (g : Nat)
      (hpc : s.pcs t = .lExitHasCv k g) :
      KStep s { s with count := s.count - 1, cvLock := none
                       pcs := Function.update s.pcs t .lDone }
  | aAcqMaster (s : KState n) (t : Fin n)
      (hpc : s.pcs t = .aStart) (hm : s.master = none) :
      KStep s { s with master := some t, pcs := Function.update s.pcs t .aHasMaster }
  | aAcqCv (s : KState n) (t : Fin n)
      (hpc : s.pcs t = .aHasMaster) (hc : s.cvLock = none) :
      KStep s { s with cvLock := some t, pcs := Function.update s.pcs t .aHasCv }
  | aEnter (s : KState n) (t : Fin n)
      (hpc : s.pcs t = .aHasCv) (hz : s.count = 0) :
      KStep s { s with gen := s.gen + 1, cvLock := none
                       pcs := Function.update s.pcs t .aInCS }
  | aWait (s : KState n) (t : Fin n)
      (hpc : s.pcs t = .aHasCv) (hnz : s.count ≠ 0) :
      KStep s { s with cvLock := none, pcs := Function.update s.pcs t .aWaiting }
  | aWake (s : KState n) (t : Fin n)
      (hpc : s.pcs t = .aWaiting) (hc : s.cvLock = none) :
      KStep s { s with cvLock := some t, pcs := Function.update s.pcs t .aHasCv }
  | aExit (s : KState n) (t : Fin n)
      (hpc : s.pcs t = .aInCS) :
      KStep s { s with master := none, pcs := Function.update s.pcs t .aDone }

def KInit {n : Nat} (s : KState n) : Prop :=
  s.master = none ∧ s.cvLock = none ∧ s.count = 0 ∧ s.gen = 0
  ∧ (∀ g k, s.guard g k = none)
  ∧ (∀ t, (∃ k, s.pcs t = .lStart k) ∨ s.pcs t = .aStart
      ∨ s.pcs t = .lDone ∨ s.pcs t = .aDone)

inductive KReach {n : Nat} : KState n → Prop where
  | init (s : KState n) (h : KInit s) : KReach s
  | step (s s' : KState n) (h : KReach s) (hs : KStep s s') : KReach s'

def KInv {n : Nat} (s : KState n) : Prop :=
  (∀ t, holdsMaster (s.pcs t) = true → s.master = some t)
  ∧ (∀ t, holdsCv (s.pcs t) = true → s.cvLock = some t)
  ∧ (∀ t k g, s.pcs t = .lInCS k g → s.guard g k = some t)
  ∧ s.count = (Finset.univ.filter (fun t => inFlight (s.pcs t) = true)).card
  ∧ (∀ t k g, s.pcs t = .lWaitGuard k g ∨ s.pcs t = .lInCS k g → g = s.gen)
  ∧ (∀ t, s.pcs t = .aInCS → s.count = 0)

def kD0 : KState 1 :=
  { master := none, cvLock := none, count := 0, gen := 0,
    guard := fun _ _ => none, pcs := fun _ => KPC.aStart }

def kD1 : KState 1 :=
  { kD0 with master := some 0, pcs := Function.update kD0.pcs 0 KPC.aHasMaster }

def kD2 : KState 1 :=
  { kD1 with cvLock := some 0, pcs := Function.update kD1.pcs 0 KPC.aHasCv }

def kD3 : KState 1 :=
  { kD2 with
    gen := kD2.gen + 1
    cvLock := none
    pcs := Function.update kD2.pcs 0 KPC.aInCS }

def kC0 : KState 2 :=
  { master := none, cvLock := none, count := 0, gen := 0,
    guard := fun _ _ => none,
    pcs := fun t => if t = 0 then KPC.lStart "a".data else KPC.lStart "b".data }

/-! Theorems. -/

theorem isPrefixOf_iff {l1 l2 : Str} : l1.isPrefixOf l2 = true ↔ l1 <+: l2 :=
  List.isPrefixOf_iff_prefix

theorem mem_sortedByKey {o : ObjectInfo} {l : List ObjectInfo} :
    o ∈ sortedByKey l ↔ o ∈ l :=
  (List.perm_insertionSort keyLe l).mem_iff

theorem mem_pfxFiltered_sub {o : ObjectInfo} {l : List ObjectInfo} {pfx : Option Str}
    (h : o ∈ pfxFiltered l pfx) : o ∈ l := by
  unfold pfxFiltered at h
  split at h
  · exact List.filter_subset' _ h
  · exact h

theorem mem_pfxFiltered_key {o : ObjectInfo} {l : List ObjectInfo} {pfx : Option Str}
    (h : o ∈ pfxFiltered l pfx) : (optStr pfx).isPrefixOf o.key := by
  unfold pfxFiltered at h
  split at h
  case isTrue ht =>
    exact (List.mem_filter.mp h).2
  case isFalse ht =>
    have : optStr pfx = [] := by
      cases pfx with
      | none => rfl
      | some s =>
        simp only [strTruthy, Bool.not_eq_true'] at ht
        simp [optStr, List.isEmpty_iff.mp (by simpa using ht)]
    rw [this]
    simp [isPrefixOf_iff]

theorem mem_cursorSkipped_sub {o : ObjectInfo} {l : List ObjectInfo} {cursor : Option Str}
    (h : o ∈ cursorSkipped l cursor) : o ∈ l := by
  unfold cursorSkipped at h
  split at h
  · exact List.filter_subset' _ h
  · exact h

theorem mem_filteredObjects_sub {o : ObjectInfo} {objs : List ObjectInfo}
    {pfx cursor : Option Str} (h : o ∈ filteredObjects objs pfx cursor) : o ∈ objs :=
  mem_pfxFiltered_sub (mem_sortedByKey.mp (mem_cursorSkipped_sub h))

theorem mem_keptObjects_sub {o : ObjectInfo} {objs : List ObjectInfo}
    {pfx cursor : Option Str} {mk : Nat} (h : o ∈ keptObjects objs pfx cursor mk) : o ∈ objs :=
  mem_filteredObjects_sub (List.take_subset _ _ h)

theorem mem_keptObjects_key {o : ObjectInfo} {objs : List ObjectInfo}
    {pfx cursor : Option Str} {mk : Nat} (h : o ∈ keptObjects objs pfx cursor mk) :
    (optStr pfx).isPrefixOf o.key :=
  mem_pfxFiltered_key (mem_sortedByKey.mp (mem_cursorSkipped_sub (List.take_subset _ _ h)))

theorem mem_cursorSkipped_iff {o : ObjectInfo} {l : List ObjectInfo} {cursor : Option Str}
    (hkey : ValidKey o.key) :
    o ∈ cursorSkipped l cursor ↔ o ∈ l ∧ optStr cursor < o.key := by
  unfold cursorSkipped
  split
  case isTrue ht =>
    simp [List.mem_filter, decide_eq_true_iff]
  case isFalse ht =>
    have hnil : optStr cursor = [] := by
      cases cursor with
      | none => rfl
      | some s =>
        simp only [strTruthy, Bool.not_eq_true'] at ht
        simp [optStr, List.isEmpty_iff.mp (by simpa using ht)]
    rw [hnil]
    have : ([] : Str) < o.key := by
      cases hk : o.key with
      | nil => exact absurd hk hkey
      | cons c t => exact List.Lex.nil
    simp [this]

theorem findSub_some_ne_nil {d l : Str} {i : Nat} (hd : d ≠ []) (h : findSub d l = some i) :
    l ≠ [] := by
  intro rfl_l
  subst rfl_l
  unfold findSub at h
  cases d with
  | nil => exact hd rfl
  | cons c t => simp [List.isPrefixOf] at h

theorem findSub_some_prefix {d l : Str} {i : Nat} (h : findSub d l = some i) :
    d <+: l.drop i := by
  induction l generalizing i with
  | nil =>
    unfold findSub at h
    split at h
    · cases h
      exact isPrefixOf_iff.mp (by assumption)
    · cases h
  | cons c t ih =>
    unfold findSub at h
    split at h
    case isTrue hp =>
      cases h
      exact isPrefixOf_iff.mp hp
    case isFalse hp =>
      match hr : findSub d t with
      | none => rw [hr] at h; cases h
      | some j =>
        rw [hr] at h
        simp only [Option.map_some'] at h
        cases h
        simpa using ih hr

theorem findSub_isSome_of_prefix_drop {d l : Str} {i : Nat} (h : d <+: l.drop i)
    (hd : d ≠ []) : (findSub d l).isSome := by
  induction i generalizing l with
  | zero =>
    rw [List.drop_zero] at h
    cases l with
    | nil =>
      rcases List.prefix_nil.mp h with rfl
      exact absurd rfl hd
    | cons c t =>
      unfold findSub
      rw [if_pos (isPrefixOf_iff.mpr h)]
      rfl
  | succ n ih =>
    cases l with
    | nil =>
      rcases List.prefix_nil.mp (by simpa using h) with rfl
      exact absurd rfl hd
    | cons c t =>
      unfold findSub
      split
      · rfl
      · have := ih (l := t) (by simpa using h)
        rcases Option.isSome_iff_exists.mp this with ⟨j, hj⟩
        rw [hj]
        rfl

theorem rollup_has_delim {plen : Nat} {d : Str} {o : ObjectInfo} {s : Str}
    (hd : d ≠ []) (h : rollupOf plen d o = some s) :
    (findSub d (s.drop plen)).isSome := by
  unfold rollupOf at h
  match hf : findSub d (o.key.drop plen) with
  | none => rw [hf] at h; cases h
  | some idx =>
    rw [hf] at h
    simp only [Option.map_some', Option.some.injEq] at h
    subst h
    have hdrop : (o.key.take (plen + idx + d.length)).drop plen
        = (o.key.drop plen).take (idx + d.length) := by
      rw [List.drop_take]
      congr 1
      omega
    rw [hdrop]
    have hpre : d <+: (o.key.drop plen).drop idx := findSub_some_prefix hf
    have : ((o.key.drop plen).take (idx + d.length)).drop idx
        = ((o.key.drop plen).drop idx).take d.length := by
      rw [List.drop_take]
      congr 1
      omega
    refine findSub_isSome_of_prefix_drop (i := idx) ?_ hd
    rw [this]
    have heq := List.prefix_iff_eq_take.mp hpre
    rw [← heq]

theorem rollup_ne_nil {plen : Nat} {d : Str} {o : ObjectInfo} {s : Str}
    (hd : d ≠ []) (h : rollupOf plen d o = some s) : s ≠ [] := by
  unfold rollupOf at h
  match hf : findSub d (o.key.drop plen) with
  | none => rw [hf] at h; cases h
  | some idx =>
    rw [hf] at h
    simp only [Option.map_some', Option.some.injEq] at h
    subst h
    have hkey : o.key ≠ [] := by
      intro hk
      exact findSub_some_ne_nil hd hf (by simp [hk])
    intro htake
    rcases List.take_eq_nil_iff.mp htake with h0 | h0
    · have : d.length = 0 := by omega
      exact hd (List.length_eq_zero.mp this)
    · exact hkey h0

theorem split_of_delim_falsy {objs : List ObjectInfo} {pfx delim : Option Str}
    (h : strTruthy delim = false) :
    _split_contents_and_prefixes objs pfx delim = (objs, []) := by
  simp [_split_contents_and_prefixes, h]

theorem mem_split_contents {objs : List ObjectInfo} {pfx delim : Option Str}
    {x : ObjectInfo} (ht : strTruthy delim = true) :
    x ∈ (_split_contents_and_prefixes objs pfx delim).1
      ↔ x ∈ objs ∧ findSub (optStr delim) (x.key.drop (optStr pfx).length) = none := by
  simp [_split_contents_and_prefixes, ht, List.mem_filter, Option.isNone_iff_eq_none]

theorem mem_split_cps {objs : List ObjectInfo} {pfx delim : Option Str} {s : Str}
    (ht : strTruthy delim = true) :
    s ∈ (_split_contents_and_prefixes objs pfx delim).2
      ↔ ∃ o ∈ objs, rollupOf (optStr pfx).length (optStr delim) o = some s := by
  simp only [_split_contents_and_prefixes, ht, Bool.not_true, Bool.false_eq_true,
    if_false]
  rw [List.mem_insertionSort, List.mem_dedup, List.mem_filterMap]

theorem split_cps_sorted (objs : List ObjectInfo) (pfx delim : Option Str) :
    ((_split_contents_and_prefixes objs pfx delim).2).Sorted (· < ·) := by
  unfold _split_contents_and_prefixes
  split
  · simp
  · refine List.Sorted.lt_of_le (List.sorted_insertionSort _ _) ?_
    exact (List.perm_insertionSort _ _).nodup_iff.mpr (List.nodup_dedup _)

theorem length_filter_add_length_filterMap {α β : Type} (l : List α) (p : α → Bool)
    (q : α → Option β) (h : ∀ a, (q a).isSome ↔ p a = false) :
    (l.filter p).length + (l.filterMap q).length = l.length := by
  induction l with
  | nil => rfl
  | cons a t ih =>
    by_cases hp : p a
    · have hq : q a = none := by
        cases hqa : q a with
        | none => rfl
        | some b =>
          have := (h a).mp (by simp [hqa])
          simp [hp] at this
      rw [List.filter_cons, List.filterMap_cons, hq, if_pos hp]
      simp only [List.length_cons]
      omega
    · have hq : (q a).isSome := (h a).mpr (by simpa using hp)
      rcases Option.isSome_iff_exists.mp hq with ⟨b, hb⟩
      rw [List.filter_cons, List.filterMap_cons, hb, if_neg hp]
      simp only [List.length_cons]
      omega

theorem split_length_le (objs : List ObjectInfo) (pfx delim : Option Str) :
    (_split_contents_and_prefixes objs pfx delim).1.length
      + (_split_contents_and_prefixes objs pfx delim).2.length ≤ objs.length := by
  unfold _split_contents_and_prefixes
  split
  · simp
  · simp only
    have hsort : (((objs.filterMap
        (rollupOf (optStr pfx).length (optStr delim))).dedup).insertionSort (· ≤ ·)).length
        = ((objs.filterMap (rollupOf (optStr pfx).length (optStr delim))).dedup).length :=
      List.length_insertionSort _ _
    have hded := (List.dedup_sublist
      (objs.filterMap (rollupOf (optStr pfx).length (optStr delim)))).length_le
    have hmain := length_filter_add_length_filterMap objs
      (fun o => (findSub (optStr delim) (o.key.drop (optStr pfx).length)).isNone)
      (rollupOf (optStr pfx).length (optStr delim)) ?_
    · omega
    · intro a
      unfold rollupOf
      cases hf : findSub (optStr delim) (a.key.drop (optStr pfx).length) <;> simp [hf]

theorem split_ne_nil {objs : List ObjectInfo} {pfx delim : Option Str} (hobjs : objs ≠ []) :
    (_split_contents_and_prefixes objs pfx delim).1 ≠ []
      ∨ (_split_contents_and_prefixes objs pfx delim).2 ≠ [] := by
  unfold _split_contents_and_prefixes
  split
  · exact Or.inl hobjs
  · simp only
    by_cases hcps : (objs.filterMap (rollupOf (optStr pfx).length (optStr delim))) = []
    · left
      have hall : ∀ o ∈ objs, rollupOf (optStr pfx).length (optStr delim) o = none := by
        intro o ho
        exact List.filterMap_eq_nil_iff.mp hcps o ho
      have : objs.filter
          (fun o => (findSub (optStr delim) (o.key.drop (optStr pfx).length)).isNone) = objs := by
        refine List.filter_eq_self.mpr ?_
        intro o ho
        have := hall o ho
        unfold rollupOf at this
        cases hf : findSub (optStr delim) (o.key.drop (optStr pfx).length) with
        | none => simp
        | some i => rw [hf] at this; simp at this
      rw [this]
      exact hobjs
    · right
      intro hnil
      have : ((objs.filterMap (rollupOf (optStr pfx).length (optStr delim))).dedup) = [] := by
        have hlen := List.length_insertionSort (· ≤ ·)
          ((objs.filterMap (rollupOf (optStr pfx).length (optStr delim))).dedup)
        rw [hnil] at hlen
        exact List.length_eq_zero.mp hlen.symm
      exact hcps ((List.dedup_eq_nil _).mp this)

theorem mem_of_getLast?_eq {α : Type} {l : List α} {x : α} (h : l.getLast? = some x) :
    x ∈ l := by
  rcases List.mem_getLast?_eq_getLast (by simp [h] : x ∈ l.getLast?) with ⟨hne, rfl⟩
  exact List.getLast_mem hne

theorem utf8Bytes_ne_nil (c : Char) : utf8Bytes c ≠ [] := by
  simp only [utf8Bytes]
  split <;> try simp
  split <;> try simp
  split <;> simp

theorem quoteChar_ne_nil (c : Char) : quoteChar c ≠ [] := by
  unfold quoteChar
  split
  · simp
  · match hu : utf8Bytes c with
    | [] => exact absurd hu (utf8Bytes_ne_nil c)
    | b :: rest => simp [List.flatMap_cons, pctByte]

theorem pyQuote_ne_nil {s : Str} (h : s ≠ []) : pyQuote s ≠ [] := by
  cases s with
  | nil => exact absurd rfl h
  | cons c t =>
    unfold pyQuote
    rw [List.flatMap_cons]
    intro happ
    rcases List.append_eq_nil.mp happ with ⟨h1, _⟩
    exact quoteChar_ne_nil c h1

theorem encode_lengths (objs : List ObjectInfo) (cps : List Str) (e : Option Str) :
    (_encode_keys_and_prefixes objs cps e).1.length = objs.length
      ∧ (_encode_keys_and_prefixes objs cps e).2.length = cps.length := by
  unfold _encode_keys_and_prefixes
  split <;> simp

theorem encode_keys_ne_nil {objs : List ObjectInfo} {cps : List Str} {e : Option Str}
    (h : ∀ o ∈ objs, o.key ≠ []) :
    ∀ x ∈ (_encode_keys_and_prefixes objs cps e).1, x.key ≠ [] := by
  unfold _encode_keys_and_prefixes
  split
  · intro x hx
    rcases List.mem_map.mp hx with ⟨o, ho, rfl⟩
    exact pyQuote_ne_nil (h o ho)
  · exact h

theorem encode_cps_ne_nil {objs : List ObjectInfo} {cps : List Str} {e : Option Str}
    (h : ∀ s ∈ cps, s ≠ []) :
    ∀ s ∈ (_encode_keys_and_prefixes objs cps e).2, s ≠ [] := by
  unfold _encode_keys_and_prefixes
  split
  · intro s hs
    rcases List.mem_map.mp hs with ⟨s0, hs0, rfl⟩
    exact pyQuote_ne_nil (h s0 hs0)
  · exact h

theorem encode_ne_nil {objs : List ObjectInfo} {cps : List Str} {e : Option Str}
    (h : objs ≠ [] ∨ cps ≠ []) :
    (_encode_keys_and_prefixes objs cps e).1 ≠ [] ∨ (_encode_keys_and_prefixes objs cps e).2 ≠ [] := by
  unfold _encode_keys_and_prefixes
  split <;> simpa using h

theorem v1NextMarker_ne_nil {contents : List ObjectInfo} {cps : List Str}
    (hc : ∀ o ∈ contents, o.key ≠ []) (hp : ∀ s ∈ cps, s ≠ [])
    (hne : contents ≠ [] ∨ cps ≠ []) : v1NextMarker contents cps ≠ [] := by
  unfold v1NextMarker
  match hcl : cps.getLast? with
  | some s => exact hp s (mem_of_getLast?_eq hcl)
  | none =>
    have hcps : cps = [] := by simpa [List.getLast?_eq_none_iff] using hcl
    match hol : contents.getLast? with
    | some o => exact hc o (mem_of_getLast?_eq hol)
    | none =>
      have : contents = [] := by simpa [List.getLast?_eq_none_iff] using hol
      rcases hne with h | h
      · exact absurd this h
      · exact absurd hcps h

theorem truthy_optStr_ne {x : Option Str} (h : strTruthy x = true) : optStr x ≠ [] := by
  cases x with
  | none => simp [strTruthy] at h
  | some s =>
    simp only [strTruthy, Bool.not_eq_true'] at h
    simpa [optStr] using List.isEmpty_eq_false.mp (by simpa using h)

theorem split_contents_sub {objs : List ObjectInfo} {pfx delim : Option Str} {x : ObjectInfo}
    (h : x ∈ (_split_contents_and_prefixes objs pfx delim).1) : x ∈ objs := by
  unfold _split_contents_and_prefixes at h
  split at h
  · exact h
  · exact List.filter_subset' _ h

theorem split_cps_ne_nil {objs : List ObjectInfo} {pfx delim : Option Str} :
    ∀ s ∈ (_split_contents_and_prefixes objs pfx delim).2, s ≠ [] := by
  intro s hs
  cases ht : strTruthy delim with
  | false => rw [split_of_delim_falsy ht] at hs; cases hs
  | true =>
    rcases (mem_split_cps ht).mp hs with ⟨o, _, hro⟩
    exact rollup_ne_nil (truthy_optStr_ne ht) hro

theorem split_encode_length_le (kept : List ObjectInfo) (pfx delim e : Option Str) :
    (_encode_keys_and_prefixes (_split_contents_and_prefixes kept pfx delim).1
        (_split_contents_and_prefixes kept pfx delim).2 e).1.length
      + (_encode_keys_and_prefixes (_split_contents_and_prefixes kept pfx delim).1
        (_split_contents_and_prefixes kept pfx delim).2 e).2.length ≤ kept.length := by
  have h1 := encode_lengths (_split_contents_and_prefixes kept pfx delim).1
    (_split_contents_and_prefixes kept pfx delim).2 e
  have h2 := split_length_le kept pfx delim
  omega

theorem listfilter_max_keys_bound (objs : List ObjectInfo) (pfx delim : Option Str)
    (mk : Nat) (marker enc ct sa : Option Str) :
    (filter_objects objs pfx delim mk marker enc).objects.length
        + (filter_objects objs pfx delim mk marker enc).common_prefixes.length ≤ mk
      ∧ (filter_objects_v2 objs ct delim enc mk pfx sa).objects.length
        + (filter_objects_v2 objs ct delim enc mk pfx sa).common_prefixes.length ≤ mk := by
  constructor
  · have hk : ((filteredObjects objs pfx marker).take mk).length ≤ mk :=
      List.length_take_le ..
    have hb := split_encode_length_le ((filteredObjects objs pfx marker).take mk) pfx delim enc
    simp only [filter_objects]
    omega
  · have hk : ((filteredObjects objs pfx (pyOr ct sa)).take mk).length ≤ mk :=
      List.length_take_le ..
    have hb := split_encode_length_le ((filteredObjects objs pfx (pyOr ct sa)).take mk) pfx delim enc
    simp only [filter_objects_v2]
    omega

theorem filter_objects_truncated_empty_marker_at_zero :
    (filter_objects
        [{ key := "a".data, etag := [], size := 0, last_modified := 0, content_type := [] }]
        none none 0 none none).is_truncated = true
      ∧ (filter_objects
        [{ key := "a".data, etag := [], size := 0, last_modified := 0, content_type := [] }]
        none none 0 none none).next_marker = [] := by
  constructor
  · rfl
  · rfl

theorem filter_objects_next_marker_iff (objs : List ObjectInfo) (pfx delim : Option Str)
    (mk : Nat) (marker enc : Option Str) (hmk : 1 ≤ mk)
    (hkeys : ∀ o ∈ objs, ValidKey o.key) :
    ((filter_objects objs pfx delim mk marker enc).next_marker = []
      ↔ (filter_objects objs pfx delim mk marker enc).is_truncated = false) := by
  simp only [filter_objects]
  by_cases ht : mk < (filteredObjects objs pfx marker).length
  · have hb : decide (mk < (filteredObjects objs pfx marker).length) = true := by
      simpa using ht
    simp only [hb, if_true, Bool.true_eq_false, iff_false]
    have hkept : ((filteredObjects objs pfx marker).take mk) ≠ [] := by
      have : ((filteredObjects objs pfx marker).take mk).length = mk := by
        rw [List.length_take]
        omega
      intro hnil
      rw [hnil] at this
      simp at this
      omega
    refine v1NextMarker_ne_nil ?_ ?_ ?_
    · refine encode_keys_ne_nil ?_
      intro o ho
      exact hkeys o (mem_keptObjects_sub (split_contents_sub ho))
    · exact encode_cps_ne_nil split_cps_ne_nil
    · exact encode_ne_nil (split_ne_nil hkept)
  · have hb : decide (mk < (filteredObjects objs pfx marker).length) = false := by
      simpa using ht
    simp [hb]

theorem filter_objects_next_marker_iff_witness :
    ((filter_objects
        [{ key := "a".data, etag := [], size := 0, last_modified := 0, content_type := [] }]
        none none 1 none none).next_marker = []
      ↔ (filter_objects
        [{ key := "a".data, etag := [], size := 0, last_modified := 0, content_type := [] }]
        none none 1 none none).is_truncated = false) :=
  filter_objects_next_marker_iff _ none none 1 none none (by omega) (by
    intro o ho
    rcases List.mem_singleton.mp ho with rfl
    simp [ValidKey])

theorem pyOr_eq_or {ct sa : Option Str} (hct : ∀ s, ct = some s → ValidKey s) :
    pyOr ct sa = ct.or sa := by
  cases ct with
  | none => rfl
  | some s =>
    have hs : s ≠ [] := hct s rfl
    have htr : strTruthy (some s) = true := by
      simp [strTruthy, List.isEmpty_iff, hs]
    simp [pyOr, htr, Option.or]

theorem cursor_skip_retains_exactly (objs : List ObjectInfo) (pfx marker ct sa : Option Str)
    (hkeys : ∀ o ∈ objs, ValidKey o.key)
    (hct : ∀ s, ct = some s → ValidKey s) :
    (∀ o, o ∈ filteredObjects objs pfx marker
      ↔ o ∈ pfxFiltered objs pfx ∧ optStr marker < o.key)
    ∧ (∀ o, o ∈ filteredObjects objs pfx (pyOr ct sa)
      ↔ o ∈ pfxFiltered objs pfx ∧ optStr (ct.or sa) < o.key)
    ∧ filteredObjects objs pfx (pyOr none none) = sortedByKey (pfxFiltered objs pfx) := by
  have main : ∀ cursor : Option Str, ∀ o,
      o ∈ cursorSkipped (sortedByKey (pfxFiltered objs pfx)) cursor
        ↔ o ∈ pfxFiltered objs pfx ∧ optStr cursor < o.key := by
    intro cursor o
    constructor
    · intro h
      have ho : o ∈ pfxFiltered objs pfx := mem_sortedByKey.mp (mem_cursorSkipped_sub h)
      have hv : ValidKey o.key := hkeys o (mem_pfxFiltered_sub ho)
      exact ⟨ho, ((mem_cursorSkipped_iff hv).mp h).2⟩
    · rintro ⟨ho, hlt⟩
      have hv : ValidKey o.key := hkeys o (mem_pfxFiltered_sub ho)
      exact (mem_cursorSkipped_iff hv).mpr ⟨mem_sortedByKey.mpr ho, hlt⟩
  refine ⟨fun o => main marker o, fun o => ?_, rfl⟩
  rw [pyOr_eq_or hct]
  exact main (ct.or sa) o

theorem cursor_skip_retains_exactly_witness :
    (∀ o, o ∈ filteredObjects
        [{ key := "b".data, etag := [], size := 0, last_modified := 0, content_type := [] }]
        none (some "a".data)
      ↔ o ∈ pfxFiltered
        [{ key := "b".data, etag := [], size := 0, last_modified := 0, content_type := [] }]
        none ∧ optStr (some "a".data) < o.key)
    ∧ (∀ o, o ∈ filteredObjects
        [{ key := "b".data, etag := [], size := 0, last_modified := 0, content_type := [] }]
        none (pyOr (some "c".data) none)
      ↔ o ∈ pfxFiltered
        [{ key := "b".data, etag := [], size := 0, last_modified := 0, content_type := [] }]
        none ∧ optStr ((some "c".data).or none) < o.key)
    ∧ filteredObjects
        [{ key := "b".data, etag := [], size := 0, last_modified := 0, content_type := [] }]
        none (pyOr none none)
      = sortedByKey (pfxFiltered
        [{ key := "b".data, etag := [], size := 0, last_modified := 0, content_type := [] }] none) :=
  cursor_skip_retains_exactly
    [{ key := "b".data, etag := [], size := 0, last_modified := 0, content_type := [] }]
    none (some "a".data) (some "c".data) none
    (by
      intro o ho
      rcases List.mem_singleton.mp ho with rfl
      simp [ValidKey])
    (by
      intro s hs
      cases hs
      simp [ValidKey])

theorem delim_cons_truthy (c : Char) (dt : Str) : strTruthy (some (c :: dt)) = true := by
  simp [strTruthy]

theorem encode_none_id (objs : List ObjectInfo) (cps : List Str) :
    _encode_keys_and_prefixes objs cps none = (objs, cps) := by
  simp [_encode_keys_and_prefixes]

theorem split_contents_props {kept : List ObjectInfo} {pfx : Option Str} (c : Char) (dt : Str)
    (hpfx : ∀ o ∈ kept, (optStr pfx).isPrefixOf o.key) :
    ∀ o ∈ (_split_contents_and_prefixes kept pfx (some (c :: dt))).1,
      (optStr pfx).isPrefixOf o.key
        ∧ findSub (c :: dt) (o.key.drop (optStr pfx).length) = none := by
  intro o ho
  have h := (mem_split_contents (delim_cons_truthy c dt)).mp ho
  exact ⟨hpfx o h.1, h.2⟩

theorem split_disjoint {kept : List ObjectInfo} {pfx : Option Str} (c : Char) (dt : Str) :
    ∀ s ∈ (_split_contents_and_prefixes kept pfx (some (c :: dt))).2,
      ∀ o ∈ (_split_contents_and_prefixes kept pfx (some (c :: dt))).1, s ≠ o.key := by
  intro s hs o ho heq
  rcases (mem_split_cps (delim_cons_truthy c dt)).mp hs with ⟨o', _, hro⟩
  have hsome : (findSub (c :: dt) (s.drop (optStr pfx).length)).isSome :=
    rollup_has_delim (by simp) hro
  have hnone : findSub (c :: dt) (o.key.drop (optStr pfx).length) = none :=
    ((mem_split_contents (delim_cons_truthy c dt)).mp ho).2
  rw [heq, hnone] at hsome
  cases hsome

theorem listfilter_listing_invariant (objs : List ObjectInfo) (pfx : Option Str)
    (c : Char) (dt : Str) (mk : Nat) (marker ct sa : Option Str) :
    (∀ o ∈ (filter_objects objs pfx (some (c :: dt)) mk marker none).objects,
        (optStr pfx).isPrefixOf o.key
          ∧ findSub (c :: dt) (o.key.drop (optStr pfx).length) = none)
    ∧ ((filter_objects objs pfx (some (c :: dt)) mk marker none).common_prefixes).Sorted (· < ·)
    ∧ (∀ s, s ∈ (filter_objects objs pfx (some (c :: dt)) mk marker none).common_prefixes
        ↔ ∃ o ∈ keptObjects objs pfx marker mk,
            rollupOf (optStr pfx).length (c :: dt) o = some s)
    ∧ (∀ s ∈ (filter_objects objs pfx (some (c :: dt)) mk marker none).common_prefixes,
        ∀ o ∈ (filter_objects objs pfx (some (c :: dt)) mk marker none).objects, s ≠ o.key)
    ∧ (∀ o ∈ (filter_objects_v2 objs ct (some (c :: dt)) none mk pfx sa).objects,
        (optStr pfx).isPrefixOf o.key
          ∧ findSub (c :: dt) (o.key.drop (optStr pfx).length) = none)
    ∧ ((filter_objects_v2 objs ct (some (c :: dt)) none mk pfx sa).common_prefixes).Sorted (· < ·)
    ∧ (∀ s, s ∈ (filter_objects_v2 objs ct (some (c :: dt)) none mk pfx sa).common_prefixes
        ↔ ∃ o ∈ keptObjects objs pfx (pyOr ct sa) mk,
            rollupOf (optStr pfx).length (c :: dt) o = some s)
    ∧ (∀ s ∈ (filter_objects_v2 objs ct (some (c :: dt)) none mk pfx sa).common_prefixes,
        ∀ o ∈ (filter_objects_v2 objs ct (some (c :: dt)) none mk pfx sa).objects, s ≠ o.key) := by
  have hobj1 : (filter_objects objs pfx (some (c :: dt)) mk marker none).objects
      = (_split_contents_and_prefixes (keptObjects objs pfx marker mk) pfx (some (c :: dt))).1 := by
    simp [filter_objects, encode_none_id, keptObjects]
  have hcps1 : (filter_objects objs pfx (some (c :: dt)) mk marker none).common_prefixes
      = (_split_contents_and_prefixes (keptObjects objs pfx marker mk) pfx (some (c :: dt))).2 := by
    simp [filter_objects, encode_none_id, keptObjects]
  have hobj2 : (filter_objects_v2 objs ct (some (c :: dt)) none mk pfx sa).objects
      = (_split_contents_and_prefixes (keptObjects objs pfx (pyOr ct sa) mk) pfx
          (some (c :: dt))).1 := by
    simp [filter_objects_v2, encode_none_id, keptObjects]
  have hcps2 : (filter_objects_v2 objs ct (some (c :: dt)) none mk pfx sa).common_prefixes
      = (_split_contents_and_prefixes (keptObjects objs pfx (pyOr ct sa) mk) pfx
          (some (c :: dt))).2 := by
    simp [filter_objects_v2, encode_none_id, keptObjects]
  refine ⟨?_, ?_, ?_, ?_, ?_, ?_, ?_, ?_⟩
  · rw [hobj1]
    exact split_contents_props c dt (fun o ho => mem_keptObjects_key ho)
  · rw [hcps1]
    exact split_cps_sorted ..
  · intro s
    rw [hcps1]
    exact mem_split_cps (delim_cons_truthy c dt)
  · rw [hcps1, hobj1]
    exact split_disjoint c dt
  · rw [hobj2]
    exact split_contents_props c dt (fun o ho => mem_keptObjects_key ho)
  · rw [hcps2]
    exact split_cps_sorted ..
  · intro s
    rw [hcps2]
    exact mem_split_cps (delim_cons_truthy c dt)
  · rw [hcps2, hobj2]
    exact split_disjoint c dt

theorem inmemory_put_get_head_roundtrip (md5hex : List Nat → Str) (s : InMemoryStore)
    (bucket_name key : Str) (data : List Nat) (content_type : Option Str) (now : Int) :
    ((InMemoryStore.get_object
        (InMemoryStore.put_object md5hex s bucket_name key data content_type now).1
        bucket_name key).map (·.data) = some data)
    ∧ ((InMemoryStore.head_object
        (InMemoryStore.put_object md5hex s bucket_name key data content_type now).1
        bucket_name key).map (·.etag)
      = some (InMemoryStore.put_object md5hex s bucket_name key data content_type now).2) := by
  constructor <;>
    simp [InMemoryStore.put_object, InMemoryStore.get_object, InMemoryStore.head_object,
      Function.update_same]

theorem keysThrough_succ (pageKeys : Nat → List Str) (p : Nat) :
    keysThrough pageKeys (p + 1) = keysThrough pageKeys p ++ pageKeys (p + 1) := by
  unfold keysThrough
  rw [List.range'_concat, List.flatMap_append]
  simp [Nat.add_comm]

theorem fetchFrom_eq (pageKeys : Nat → List Str) (totalPages : Nat → Nat)
    (is_enough : List Str → Bool) (p : Nat) :
    ∀ fuel start, 1 ≤ start → start ≤ p → p + 1 ≤ start + fuel →
    (∀ q, start ≤ q → q < p →
      ¬(q = totalPages q ∨ is_enough (keysThrough pageKeys q) = true)) →
    (p = totalPages p ∨ is_enough (keysThrough pageKeys p) = true) →
    fetchFrom pageKeys totalPages is_enough start fuel (keysThrough pageKeys (start - 1))
      = keysThrough pageKeys p := by
  intro fuel
  induction fuel with
  | zero =>
    intro start h1 hsp hf _ _
    omega
  | succ n ih =>
    intro start h1 hsp hf hmin hp
    have h0 : start - 1 + 1 = start := by omega
    have hacc := keysThrough_succ pageKeys (start - 1)
    rw [h0] at hacc
    unfold fetchFrom
    rw [show keysThrough pageKeys (start - 1) ++ pageKeys start = keysThrough pageKeys start
      from hacc.symm]
    by_cases hstop : start = totalPages start
    · rw [if_pos hstop]
      have hsp2 : start = p := by
        by_contra hne
        exact hmin start le_rfl (by omega) (Or.inl hstop)
      rw [hsp2]
    · rw [if_neg hstop]
      by_cases hen : is_enough (keysThrough pageKeys start) = true
      · rw [if_pos hen]
        have hsp2 : start = p := by
          by_contra hne
          exact hmin start le_rfl (by omega) (Or.inr hen)
        rw [hsp2]
      · rw [if_neg hen]
        have hlt : start < p := by
          rcases Nat.lt_or_ge start p with h | h
          · exact h
          · have hep : start = p := by omega
            subst hep
            rcases hp with h1 | h1
            · exact absurd h1 hstop
            · exact absurd h1 hen
        have hih := ih (start + 1) (by omega) (by omega) (by omega)
          (fun q hq hql => hmin q (by omega) hql) hp
        simpa using hih

theorem gitlab_fetch_stops_at_first_enough (pageKeys : Nat → List Str)
    (totalPages : Nat → Nat) (placeholder : Str) (pfx delim : Option Str) (mk : Nat)
    (marker : Option Str) (p : Nat) (h1 : 1 ≤ p) (hmax : p ≤ MAX_PAGE - 1)
    (hmin : ∀ q, 1 ≤ q → q < p →
      ¬(q = totalPages q
        ∨ listV1IsEnough placeholder pfx delim mk marker (keysThrough pageKeys q) = true))
    (hp : p = totalPages p
        ∨ listV1IsEnough placeholder pfx delim mk marker (keysThrough pageKeys p) = true) :
    _fetch_object_keys pageKeys totalPages (listV1IsEnough placeholder pfx delim mk marker)
      = keysThrough pageKeys p
    ∧ listPerPage mk = max 20 mk := by
  refine ⟨?_, rfl⟩
  have := fetchFrom_eq pageKeys totalPages
    (listV1IsEnough placeholder pfx delim mk marker) p (MAX_PAGE - 1) 1
    le_rfl h1 (by unfold MAX_PAGE at *; omega) (fun q hq hql => hmin q hq hql) hp
  exact this

theorem gitlab_fetch_stops_witness :
    _fetch_object_keys (fun p => if p = 1 then ["a".data] else []) (fun _ => 1)
        (listV1IsEnough [] none none 1000 none)
      = keysThrough (fun p => if p = 1 then ["a".data] else []) 1
    ∧ listPerPage 1000 = max 20 1000 :=
  gitlab_fetch_stops_at_first_enough (fun p => if p = 1 then ["a".data] else [])
    (fun _ => 1) [] none none 1000 none 1 le_rfl (by unfold MAX_PAGE; omega)
    (fun q hq hql => absurd (Nat.lt_of_lt_of_le hql hq) (lt_irrefl q))
    (Or.inl rfl)

theorem mem_filter_objects_objects_sub {objs : List ObjectInfo} {pfx delim : Option Str}
    {mk : Nat} {marker : Option Str} {o : ObjectInfo}
    (h : o ∈ (filter_objects objs pfx delim mk marker none).objects) : o ∈ objs := by
  have hobj : (filter_objects objs pfx delim mk marker none).objects
      = (_split_contents_and_prefixes ((filteredObjects objs pfx marker).take mk)
          pfx delim).1 := by
    simp [filter_objects, encode_none_id]
  rw [hobj] at h
  exact mem_filteredObjects_sub (List.take_subset _ _ (split_contents_sub h))

theorem mem_filter_objects_v2_objects_sub {objs : List ObjectInfo}
    {ct delim : Option Str} {mk : Nat} {pfx sa : Option Str} {o : ObjectInfo}
    (h : o ∈ (filter_objects_v2 objs ct delim none mk pfx sa).objects) : o ∈ objs := by
  have hobj : (filter_objects_v2 objs ct delim none mk pfx sa).objects
      = (_split_contents_and_prefixes ((filteredObjects objs pfx (pyOr ct sa)).take mk)
          pfx delim).1 := by
    simp [filter_objects_v2, encode_none_id]
  rw [hobj] at h
  exact mem_filteredObjects_sub (List.take_subset _ _ (split_contents_sub h))

theorem gitlab_placeholder_invisible (store : GitlabStore) (sha256hex : List Nat → Str)
    (remote : GitlabRemote) (pageKeys : Nat → List Str) (totalPages : Nat → Nat)
    (bucket : Str) (data : List Nat) (now : Int) (pfx delim : Option Str) (mk : Nat)
    (marker ct sa : Option Str) :
    GitlabStore.get_object store sha256hex remote bucket store.placeholder_name now
      = (.error .noSuchKey, [])
    ∧ GitlabStore.head_object store remote bucket store.placeholder_name now
      = (.error .noSuchKey, [])
    ∧ store.placeholder_name ∉ (GitlabStore.list_objects store remote pageKeys totalPages
        bucket pfx delim mk marker now).objects.map (·.key)
    ∧ store.placeholder_name ∉ (GitlabStore.list_objects_v2 store remote pageKeys totalPages
        bucket ct delim none mk pfx sa now).objects.map (·.key)
    ∧ GitlabStore.put_object store sha256hex remote bucket store.placeholder_name data now
      = (.error .invalidArgument, [])
    ∧ GitlabStore.delete_object store remote bucket store.placeholder_name = (.ok (), []) := by
  refine ⟨?_, ?_, ?_, ?_, ?_, ?_⟩
  · simp [GitlabStore.get_object]
  · simp [GitlabStore.head_object]
  · intro hmem
    simp only [GitlabStore.list_objects, List.map_map, List.mem_map] at hmem
    rcases hmem with ⟨o, ho, hkey⟩
    have hin : o ∈ (keys_to_objects (_fetch_object_keys pageKeys totalPages
        (listV1IsEnough store.placeholder_name pfx delim mk marker))).filter
        (fun o => o.key ≠ store.placeholder_name) :=
      mem_filter_objects_objects_sub ho
    have := (List.mem_filter.mp hin).2
    simp only [GitlabStore.headInfo] at hkey
    simp only [decide_eq_true_iff] at this
    exact this hkey
  · intro hmem
    simp only [GitlabStore.list_objects_v2, List.map_map, List.mem_map] at hmem
    rcases hmem with ⟨o, ho, hkey⟩
    have hin : o ∈ (keys_to_objects (_fetch_object_keys pageKeys totalPages
        (listV2IsEnough store.placeholder_name ct delim none mk pfx sa))).filter
        (fun o => o.key ≠ store.placeholder_name) :=
      mem_filter_objects_v2_objects_sub ho
    have := (List.mem_filter.mp hin).2
    simp only [GitlabStore.headInfo] at hkey
    simp only [decide_eq_true_iff] at this
    exact this hkey
  · simp [GitlabStore.put_object]
  · simp [GitlabStore.delete_object]

theorem gitlab_only_exact_placeholder_hidden (store : GitlabStore)
    (sha256hex : List Nat → Str) (remote : GitlabRemote) (bucket K : Str) (now : Int)
    (hK : K ≠ store.placeholder_name) :
    GitlabStore.get_object store sha256hex remote bucket K now
      = GitlabStore.getUnguarded sha256hex remote bucket K now
    ∧ GitlabStore.head_object store remote bucket K now
      = (.ok (GitlabStore.headInfo remote bucket K now), [.headF (_object_path bucket K)])
    ∧ GitlabStore.delete_object store remote bucket K
      = GitlabStore.deleteUnguarded remote bucket K
    ∧ (∀ keys : List Str, K ∈ keys →
        K ∈ ((keys_to_objects keys).filter
          (fun o => o.key ≠ store.placeholder_name)).map (·.key)) := by
  refine ⟨?_, ?_, ?_, ?_⟩
  · simp [GitlabStore.get_object, hK]
  · simp [GitlabStore.head_object, hK]
  · simp [GitlabStore.delete_object, hK]
  · intro keys hkeys
    refine List.mem_map.mpr ⟨default_object_info K, ?_, rfl⟩
    refine List.mem_filter.mpr ⟨?_, by simpa [default_object_info] using hK⟩
    exact List.mem_map.mpr ⟨K, hkeys, rfl⟩

theorem gitlab_only_exact_placeholder_hidden_witness :
    GitlabStore.get_object ⟨".gitkeep".data⟩ (fun _ => []) sampleRemote "b".data
        "dir/.gitkeep".data 0
      = GitlabStore.getUnguarded (fun _ => []) sampleRemote "b".data "dir/.gitkeep".data 0
    ∧ GitlabStore.head_object ⟨".gitkeep".data⟩ sampleRemote "b".data "dir/.gitkeep".data 0
      = (.ok (GitlabStore.headInfo sampleRemote "b".data "dir/.gitkeep".data 0),
         [.headF (_object_path "b".data "dir/.gitkeep".data)])
    ∧ GitlabStore.delete_object ⟨".gitkeep".data⟩ sampleRemote "b".data "dir/.gitkeep".data
      = GitlabStore.deleteUnguarded sampleRemote "b".data "dir/.gitkeep".data
    ∧ (∀ keys : List Str, "dir/.gitkeep".data ∈ keys →
        "dir/.gitkeep".data ∈ ((keys_to_objects keys).filter
          (fun o => o.key ≠ GitlabStore.placeholder_name ⟨".gitkeep".data⟩)).map (·.key)) :=
  gitlab_only_exact_placeholder_hidden ⟨".gitkeep".data⟩ (fun _ => []) sampleRemote
    "b".data "dir/.gitkeep".data 0 (by decide)

theorem card_filter_update_of_eq {n : Nat} (pcs : Fin n → KPC) (t : Fin n) (v : KPC)
    (p : KPC → Bool) (h : p v = p (pcs t)) :
    (Finset.univ.filter (fun u => p (Function.update pcs t v u) = true)).card
      = (Finset.univ.filter (fun u => p (pcs u) = true)).card := by
  congr 1
  ext u
  by_cases hu : u = t
  · subst hu
    simp [Function.update_same, h]
  · simp [Function.update_noteq hu]

theorem card_filter_update_true {n : Nat} (pcs : Fin n → KPC) (t : Fin n) (v : KPC)
    (p : KPC → Bool) (hold : p (pcs t) = false) (hnew : p v = true) :
    (Finset.univ.filter (fun u => p (Function.update pcs t v u) = true)).card
      = (Finset.univ.filter (fun u => p (pcs u) = true)).card + 1 := by
  have hset : Finset.univ.filter (fun u => p (Function.update pcs t v u) = true)
      = insert t (Finset.univ.filter (fun u => p (pcs u) = true)) := by
    ext u
    by_cases hu : u = t
    · subst hu
      simp [Function.update_same, hnew]
    · simp [Function.update_noteq hu, hu]
  rw [hset, Finset.card_insert_of_not_mem (by simp [hold])]

theorem card_filter_update_false {n : Nat} (pcs : Fin n → KPC) (t : Fin n) (v : KPC)
    (p : KPC → Bool) (hold : p (pcs t) = true) (hnew : p v = false) :
    (Finset.univ.filter (fun u => p (Function.update pcs t v u) = true)).card
      = (Finset.univ.filter (fun u => p (pcs u) = true)).card - 1
    ∧ 1 ≤ (Finset.univ.filter (fun u => p (pcs u) = true)).card := by
  have hmem : t ∈ Finset.univ.filter (fun u => p (pcs u) = true) := by simp [hold]
  have hset : Finset.univ.filter (fun u => p (Function.update pcs t v u) = true)
      = (Finset.univ.filter (fun u => p (pcs u) = true)).erase t := by
    ext u
    by_cases hu : u = t
    · subst hu
      simp [Function.update_same, hnew]
    · simp [Function.update_noteq hu, hu]
  refine ⟨by rw [hset, Finset.card_erase_of_mem hmem], ?_⟩
  have := Finset.card_pos.mpr ⟨t, hmem⟩
  omega

theorem inFlight_count_pos {n : Nat} {s : KState n} {t : Fin n}
    (hc : s.count = (Finset.univ.filter (fun u => inFlight (s.pcs u) = true)).card)
    (ht : inFlight (s.pcs t) = true) : 1 ≤ s.count := by
  have hmem : t ∈ Finset.univ.filter (fun u => inFlight (s.pcs u) = true) := by simp [ht]
  have := Finset.card_pos.mpr ⟨t, hmem⟩
  omega

theorem option_some_eq {α : Type} {o : Option α} {u t : α} (h1 : o = some u)
    (h2 : o = some t) : u = t := by
  rw [h1] at h2
  exact Option.some.inj h2

theorem KInv_step {n : Nat} {s s' : KState n} (hinv : KInv s) (hstep : KStep s s') :
    KInv s' := by
  obtain ⟨hM, hC, hG, hN, hGen, hA⟩ := hinv
  cases hstep with
  | acqMaster t k hpc hm =>
    refine ⟨?_, ?_, ?_, ?_, ?_, ?_⟩ <;> dsimp only
    · intro u hu
      rcases eq_or_ne u t with rfl | hut
      · rfl
      · rw [Function.update_noteq hut] at hu
        have := hM u hu
        rw [hm] at this
        cases this
    · intro u hu
      rcases eq_or_ne u t with rfl | hut
      · rw [Function.update_same] at hu; cases hu
      · rw [Function.update_noteq hut] at hu; exact hC u hu
    · intro u k' g hu
      rcases eq_or_ne u t with rfl | hut
      · rw [Function.update_same] at hu; cases hu
      · rw [Function.update_noteq hut] at hu; exact hG u k' g hu
    · rw [hN]
      exact (card_filter_update_of_eq s.pcs t _ inFlight (by rw [hpc]; rfl)).symm
    · intro u k' g hu
      rcases eq_or_ne u t with rfl | hut
      · rw [Function.update_same] at hu; rcases hu with hu | hu <;> cases hu
      · rw [Function.update_noteq hut] at hu; exact hGen u k' g hu
    · intro u hu
      rcases eq_or_ne u t with rfl | hut
      · rw [Function.update_same] at hu; cases hu
      · rw [Function.update_noteq hut] at hu; exact hA u hu
  | acqCv t k hpc hc =>
    refine ⟨?_, ?_, ?_, ?_, ?_, ?_⟩ <;> dsimp only
    · intro u hu
      rcases eq_or_ne u t with rfl | hut
      · exact hM u (by rw [hpc]; rfl)
      · rw [Function.update_noteq hut] at hu; exact hM u hu
    · intro u hu
      rcases eq_or_ne u t with rfl | hut
      · rfl
      · rw [Function.update_noteq hut] at hu
        have := hC u hu
        rw [hc] at this
        cases this
    · intro u k' g hu
      rcases eq_or_ne u t with rfl | hut
      · rw [Function.update_same] at hu; cases hu
      · rw [Function.update_noteq hut] at hu; exact hG u k' g hu
    · rw [hN]
      exact (card_filter_update_of_eq s.pcs t _ inFlight (by rw [hpc]; rfl)).symm
    · intro u k' g hu
      rcases eq_or_ne u t with rfl | hut
      · rw [Function.update_same] at hu; rcases hu with hu | hu <;> cases hu
      · rw [Function.update_noteq hut] at hu; exact hGen u k' g hu
    · intro u hu
      rcases eq_or_ne u t with rfl | hut
      · rw [Function.update_same] at hu; cases hu
      · rw [Function.update_noteq hut] at hu; exact hA u hu
  | admitTask t k hpc =>
    refine ⟨?_, ?_, ?_, ?_, ?_, ?_⟩ <;> dsimp only
    · intro u hu
      rcases eq_or_ne u t with rfl | hut
      · exact hM u (by rw [hpc]; rfl)
      · rw [Function.update_noteq hut] at hu; exact hM u hu
    · intro u hu
      rcases eq_or_ne u t with rfl | hut
      · rw [Function.update_same] at hu; cases hu
      · rw [Function.update_noteq hut] at hu
        have h1 := hC u hu
        have h2 := hC t (by rw [hpc]; rfl)
        exact absurd (option_some_eq h1 h2) hut
    · intro u k' g hu
      rcases eq_or_ne u t with rfl | hut
      · rw [Function.update_same] at hu; cases hu
      · rw [Function.update_noteq hut] at hu; exact hG u k' g hu
    · rw [hN]
      exact (card_filter_update_true s.pcs t (KPC.lAdmitted k) inFlight (by rw [hpc]; rfl) rfl).symm
    · intro u k' g hu
      rcases eq_or_ne u t with rfl | hut
      · rw [Function.update_same] at hu; rcases hu with hu | hu <;> cases hu
      · rw [Function.update_noteq hut] at hu
        have hg := hGen u k' g hu
        by_cases hz : s.count = 0
        · exfalso
          have hif : inFlight (s.pcs u) = true := by
            rcases hu with hu | hu <;> rw [hu] <;> rfl
          have := inFlight_count_pos hN hif
          omega
        · rw [if_neg hz]; exact hg
    · intro u hu
      rcases eq_or_ne u t with rfl | hut
      · rw [Function.update_same] at hu; cases hu
      · rw [Function.update_noteq hut] at hu
        exfalso
        have h1 := hM u (by rw [hu]; rfl)
        have h2 := hM t (by rw [hpc]; rfl)
        exact hut (option_some_eq h1 h2)
  | takeGuardRef t k hpc =>
    refine ⟨?_, ?_, ?_, ?_, ?_, ?_⟩ <;> dsimp only
    · intro u hu
      rcases eq_or_ne u t with rfl | hut
      · rw [Function.update_same] at hu; cases hu
      · rw [Function.update_noteq hut] at hu
        exfalso
        have h1 := hM u hu
        have h2 := hM t (by rw [hpc]; rfl)
        exact hut (option_some_eq h1 h2)
    · intro u hu
      rcases eq_or_ne u t with rfl | hut
      · rw [Function.update_same] at hu; cases hu
      · rw [Function.update_noteq hut] at hu; exact hC u hu
    · intro u k' g hu
      rcases eq_or_ne u t with rfl | hut
      · rw [Function.update_same] at hu; cases hu
      · rw [Function.update_noteq hut] at hu; exact hG u k' g hu
    · rw [hN]
      exact (card_filter_update_of_eq s.pcs t _ inFlight (by rw [hpc]; rfl)).symm
    · intro u k' g hu
      rcases eq_or_ne u t with rfl | hut
      · rw [Function.update_same] at hu
        rcases hu with hu | hu
        · cases hu; rfl
        · cases hu
      · rw [Function.update_noteq hut] at hu; exact hGen u k' g hu
    · intro u hu
      rcases eq_or_ne u t with rfl | hut
      · rw [Function.update_same] at hu; cases hu
      · rw [Function.update_noteq hut] at hu; exact hA u hu
  | acqGuard t k g hpc hg =>
    refine ⟨?_, ?_, ?_, ?_, ?_, ?_⟩ <;> dsimp only
    · intro u hu
      rcases eq_or_ne u t with rfl | hut
      · rw [Function.update_same] at hu; cases hu
      · rw [Function.update_noteq hut] at hu; exact hM u hu
    · intro u hu
      rcases eq_or_ne u t with rfl | hut
      · rw [Function.update_same] at hu; cases hu
      · rw [Function.update_noteq hut] at hu; exact hC u hu
    · intro u k' g' hu
      rcases eq_or_ne u t with rfl | hut
      · rw [Function.update_same] at hu
        cases hu
        simp [setGuard]
      · rw [Function.update_noteq hut] at hu
        have hgu := hG u k' g' hu
        by_cases heq : g' = g ∧ k' = k
        · exfalso
          rw [heq.1, heq.2, hg] at hgu
          cases hgu
        · simp only [setGuard, heq, if_false]
          exact hgu
    · rw [hN]
      exact (card_filter_update_of_eq s.pcs t _ inFlight (by rw [hpc]; rfl)).symm
    · intro u k' g' hu
      rcases eq_or_ne u t with rfl | hut
      · rw [Function.update_same] at hu
        rcases hu with hu | hu
        · cases hu
        · cases hu; exact hGen u k g (Or.inl hpc)
      · rw [Function.update_noteq hut] at hu; exact hGen u k' g' hu
    · intro u hu
      rcases eq_or_ne u t with rfl | hut
      · rw [Function.update_same] at hu; cases hu
      · rw [Function.update_noteq hut] at hu; exact hA u hu
  | relGuard t k g hpc =>
    refine ⟨?_, ?_, ?_, ?_, ?_, ?_⟩ <;> dsimp only
    · intro u hu
      rcases eq_or_ne u t with rfl | hut
      · rw [Function.update_same] at hu; cases hu
      · rw [Function.update_noteq hut] at hu; exact hM u hu
    · intro u hu
      rcases eq_or_ne u t with rfl | hut
      · rw [Function.update_same] at hu; cases hu
      · rw [Function.update_noteq hut] at hu; exact hC u hu
    · intro u k' g' hu
      rcases eq_or_ne u t with rfl | hut
      · rw [Function.update_same] at hu; cases hu
      · rw [Function.update_noteq hut] at hu
        have hgu := hG u k' g' hu
        by_cases heq : g' = g ∧ k' = k
        · exfalso
          have hgt := hG t k g hpc
          rw [heq.1, heq.2] at hgu
          exact hut (option_some_eq hgu hgt)
        · simp only [setGuard, heq, if_false]
          exact hgu
    · rw [hN]
      exact (card_filter_update_of_eq s.pcs t _ inFlight (by rw [hpc]; rfl)).symm
    · intro u k' g' hu
      rcases eq_or_ne u t with rfl | hut
      · rw [Function.update_same] at hu; rcases hu with hu | hu <;> cases hu
      · rw [Function.update_noteq hut] at hu; exact hGen u k' g' hu
    · intro u hu
      rcases eq_or_ne u t with rfl | hut
      · rw [Function.update_same] at hu; cases hu
      · rw [Function.update_noteq hut] at hu; exact hA u hu
  | exitAcqCv t k g hpc hc =>
    refine ⟨?_, ?_, ?_, ?_, ?_, ?_⟩ <;> dsimp only
    · intro u hu
      rcases eq_or_ne u t with rfl | hut
      · rw [Function.update_same] at hu; cases hu
      · rw [Function.update_noteq hut] at hu; exact hM u hu
    · intro u hu
      rcases eq_or_ne u t with rfl | hut
      · rfl
      · rw [Function.update_noteq hut] at hu
        have := hC u hu
        rw [hc] at this
        cases this
    · intro u k' g' hu
      rcases eq_or_ne u t with rfl | hut
      · rw [Function.update_same] at hu; cases hu
      · rw [Function.update_noteq hut] at hu; exact hG u k' g' hu
    · rw [hN]
      exact (card_filter_update_of_eq s.pcs t _ inFlight (by rw [hpc]; rfl)).symm
    · intro u k' g' hu
      rcases eq_or_ne u t with rfl | hut
      · rw [Function.update_same] at hu; rcases hu with hu | hu <;> cases hu
      · rw [Function.update_noteq hut] at hu; exact hGen u k' g' hu
    · intro u hu
      rcases eq_or_ne u t with rfl | hut
      · rw [Function.update_same] at hu; cases hu
      · rw [Function.update_noteq hut] at hu; exact hA u hu
  | exitDec t k g hpc =>
    refine ⟨?_, ?_, ?_, ?_, ?_, ?_⟩ <;> dsimp only
    · intro u hu
      rcases eq_or_ne u t with rfl | hut
      · rw [Function.update_same] at hu; cases hu
      · rw [Function.update_noteq hut] at hu; exact hM u hu
    · intro u hu
      rcases eq_or_ne u t with rfl | hut
      · rw [Function.update_same] at hu; cases hu
      · rw [Function.update_noteq hut] at hu
        have h1 := hC u hu
        have h2 := hC t (by rw [hpc]; rfl)
        exact absurd (option_some_eq h1 h2) hut
    · intro u k' g' hu
      rcases eq_or_ne u t with rfl | hut
      · rw [Function.update_same] at hu; cases hu
      · rw [Function.update_noteq hut] at hu; exact hG u k' g' hu
    · have hcard := card_filter_update_false s.pcs t KPC.lDone inFlight
        (by rw [hpc]; rfl) rfl
      rw [hcard.1, ← hN]
    · intro u k' g' hu
      rcases eq_or_ne u t with rfl | hut
      · rw [Function.update_same] at hu; rcases hu with hu | hu <;> cases hu
      · rw [Function.update_noteq hut] at hu; exact hGen u k' g' hu
    · intro u hu
      rcases eq_or_ne u t with rfl | hut
      · rw [Function.update_same] at hu; cases hu
      · rw [Function.update_noteq hut] at hu
        have := hA u hu
        omega
  | aAcqMaster t hpc hm =>
    refine ⟨?_, ?_, ?_, ?_, ?_, ?_⟩ <;> dsimp only
    · intro u hu
      rcases eq_or_ne u t with rfl | hut
      · rfl
      · rw [Function.update_noteq hut] at hu
        have := hM u hu
        rw [hm] at this
        cases this
    · intro u hu
      rcases eq_or_ne u t with rfl | hut
      · rw [Function.update_same] at hu; cases hu
      · rw [Function.update_noteq hut] at hu; exact hC u hu
    · intro u k' g' hu
      rcases eq_or_ne u t with rfl | hut
      · rw [Function.update_same] at hu; cases hu
      · rw [Function.update_noteq hut] at hu; exact hG u k' g' hu
    · rw [hN]
      exact (card_filter_update_of_eq s.pcs t _ inFlight (by rw [hpc]; rfl)).symm
    · intro u k' g' hu
      rcases eq_or_ne u t with rfl | hut
      · rw [Function.update_same] at hu; rcases hu with hu | hu <;> cases hu
      · rw [Function.update_noteq hut] at hu; exact hGen u k' g' hu
    · intro u hu
      rcases eq_or_ne u t with rfl | hut
      · rw [Function.update_same] at hu; cases hu
      · rw [Function.update_noteq hut] at hu; exact hA u hu
  | aAcqCv t hpc hc =>
    refine ⟨?_, ?_, ?_, ?_, ?_, ?_⟩ <;> dsimp only
    · intro u hu
      rcases eq_or_ne u t with rfl | hut
      · exact hM u (by rw [hpc]; rfl)
      · rw [Function.update_noteq hut] at hu; exact hM u hu
    · intro u hu
      rcases eq_or_ne u t with rfl | hut
      · rfl
      · rw [Function.update_noteq hut] at hu
        have := hC u hu
        rw [hc] at this
        cases this
    · intro u k' g' hu
      rcases eq_or_ne u t with rfl | hut
      · rw [Function.update_same] at hu; cases hu
      · rw [Function.update_noteq hut] at hu; exact hG u k' g' hu
    · rw [hN]
      exact (card_filter_update_of_eq s.pcs t _ inFlight (by rw [hpc]; rfl)).symm
    · intro u k' g' hu
      rcases eq_or_ne u t with rfl | hut
      · rw [Function.update_same] at hu; rcases hu with hu | hu <;> cases hu
      · rw [Function.update_noteq hut] at hu; exact hGen u k' g' hu
    · intro u hu
      rcases eq_or_ne u t with rfl | hut
      · rw [Function.update_same] at hu; cases hu
      · rw [Function.update_noteq hut] at hu; exact hA u hu
  | aEnter t hpc hz =>
    refine ⟨?_, ?_, ?_, ?_, ?_, ?_⟩ <;> dsimp only
    · intro u hu
      rcases eq_or_ne u t with rfl | hut
      · exact hM u (by rw [hpc]; rfl)
      · rw [Function.update_noteq hut] at hu; exact hM u hu
    · intro u hu
      rcases eq_or_ne u t with rfl | hut
      · rw [Function.update_same] at hu; cases hu
      · rw [Function.update_noteq hut] at hu
        have h1 := hC u hu
        have h2 := hC t (by rw [hpc]; rfl)
        exact absurd (option_some_eq h1 h2) hut
    · intro u k' g' hu
      rcases eq_or_ne u t with rfl | hut
      · rw [Function.update_same] at hu; cases hu
      · rw [Function.update_noteq hut] at hu; exact hG u k' g' hu
    · rw [hN]
      exact (card_filter_update_of_eq s.pcs t _ inFlight (by rw [hpc]; rfl)).symm
    · intro u k' g' hu
      rcases eq_or_ne u t with rfl | hut
      · rw [Function.update_same] at hu; rcases hu with hu | hu <;> cases hu
      · rw [Function.update_noteq hut] at hu
        exfalso
        have hif : inFlight (s.pcs u) = true := by
          rcases hu with hu | hu <;> rw [hu] <;> rfl
        have := inFlight_count_pos hN hif
        omega
    · intro u hu
      exact hz
  | aWait t hpc hnz =>
    refine ⟨?_, ?_, ?_, ?_, ?_, ?_⟩ <;> dsimp only
    · intro u hu
      rcases eq_or_ne u t with rfl | hut
      · exact hM u (by rw [hpc]; rfl)
      · rw [Function.update_noteq hut] at hu; exact hM u hu
    · intro u hu
      rcases eq_or_ne u t with rfl | hut
      · rw [Function.update_same] at hu; cases hu
      · rw [Function.update_noteq hut] at hu
        have h1 := hC u hu
        have h2 := hC t (by rw [hpc]; rfl)
        exact absurd (option_some_eq h1 h2) hut
    · intro u k' g' hu
      rcases eq_or_ne u t with rfl | hut
      · rw [Function.update_same] at hu; cases hu
      · rw [Function.update_noteq hut] at hu; exact hG u k' g' hu
    · rw [hN]
      exact (card_filter_update_of_eq s.pcs t _ inFlight (by rw [hpc]; rfl)).symm
    · intro u k' g' hu
      rcases eq_or_ne u t with rfl | hut
      · rw [Function.update_same] at hu; rcases hu with hu | hu <;> cases hu
      · rw [Function.update_noteq hut] at hu; exact hGen u k' g' hu
    · intro u hu
      rcases eq_or_ne u t with rfl | hut
      · rw [Function.update_same] at hu; cases hu
      · rw [Function.update_noteq hut] at hu; exact hA u hu
  | aWake t hpc hc =>
    refine ⟨?_, ?_, ?_, ?_, ?_, ?_⟩ <;> dsimp only
    · intro u hu
      rcases eq_or_ne u t with rfl | hut
      · exact hM u (by rw [hpc]; rfl)
      · rw [Function.update_noteq hut] at hu; exact hM u hu
    · intro u hu
      rcases eq_or_ne u t with rfl | hut
      · rfl
      · rw [Function.update_noteq hut] at hu
        have := hC u hu
        rw [hc] at this
        cases this
    · intro u k' g' hu
      rcases eq_or_ne u t with rfl | hut
      · rw [Function.update_same] at hu; cases hu
      · rw [Function.update_noteq hut] at hu; exact hG u k' g' hu
    · rw [hN]
      exact (card_filter_update_of_eq s.pcs t _ inFlight (by rw [hpc]; rfl)).symm
    · intro u k' g' hu
      rcases eq_or_ne u t with rfl | hut
      · rw [Function.update_same] at hu; rcases hu with hu | hu <;> cases hu
      · rw [Function.update_noteq hut] at hu; exact hGen u k' g' hu
    · intro u hu
      rcases eq_or_ne u t with rfl | hut
      · rw [Function.update_same] at hu; cases hu
      · rw [Function.update_noteq hut] at hu; exact hA u hu
  | aExit t hpc =>
    refine ⟨?_, ?_, ?_, ?_, ?_, ?_⟩ <;> dsimp only
    · intro u hu
      rcases eq_or_ne u t with rfl | hut
      · rw [Function.update_same] at hu; cases hu
      · rw [Function.update_noteq hut] at hu
        exfalso
        have h1 := hM u hu
        have h2 := hM t (by rw [hpc]; rfl)
        exact hut (option_some_eq h1 h2)
    · intro u hu
      rcases eq_or_ne u t with rfl | hut
      · rw [Function.update_same] at hu; cases hu
      · rw [Function.update_noteq hut] at hu; exact hC u hu
    · intro u k' g' hu
      rcases eq_or_ne u t with rfl | hut
      · rw [Function.update_same] at hu; cases hu
      · rw [Function.update_noteq hut] at hu; exact hG u k' g' hu
    · rw [hN]
      exact (card_filter_update_of_eq s.pcs t _ inFlight (by rw [hpc]; rfl)).symm
    · intro u k' g' hu
      rcases eq_or_ne u t with rfl | hut
      · rw [Function.update_same] at hu; rcases hu with hu | hu <;> cases hu
      · rw [Function.update_noteq hut] at hu; exact hGen u k' g' hu
    · intro u hu
      rcases eq_or_ne u t with rfl | hut
      · rw [Function.update_same] at hu; cases hu
      · rw [Function.update_noteq hut] at hu; exact hA u hu

theorem KInv_init {n : Nat} {s : KState n} (h : KInit s) : KInv s := by
  obtain ⟨hm, hc, hn, _, hg, hpcs⟩ := h
  have hshape : ∀ t : Fin n, (∃ k, s.pcs t = .lStart k) ∨ s.pcs t = .aStart
      ∨ s.pcs t = .lDone ∨ s.pcs t = .aDone := hpcs
  refine ⟨?_, ?_, ?_, ?_, ?_, ?_⟩
  · intro t ht
    rcases hshape t with ⟨k, hk⟩ | hk | hk | hk <;> rw [hk] at ht <;> cases ht
  · intro t ht
    rcases hshape t with ⟨k, hk⟩ | hk | hk | hk <;> rw [hk] at ht <;> cases ht
  · intro t k g ht
    rcases hshape t with ⟨k', hk⟩ | hk | hk | hk <;> rw [hk] at ht <;> cases ht
  · rw [hn]
    symm
    rw [Finset.card_eq_zero, Finset.filter_eq_empty_iff]
    intro t _
    rcases hshape t with ⟨k, hk⟩ | hk | hk | hk <;> rw [hk] <;> simp [inFlight]
  · intro t k g ht
    rcases hshape t with ⟨k', hk⟩ | hk | hk | hk <;> rw [hk] at ht <;>
      rcases ht with ht | ht <;> cases ht
  · intro t ht
    rcases hshape t with ⟨k, hk⟩ | hk | hk | hk <;> rw [hk] at ht <;> cases ht

theorem KInv_reach {n : Nat} {s : KState n} (h : KReach s) : KInv s := by
  induction h with
  | init s h => exact KInv_init h
  | step s s' _ hs ih => exact KInv_step ih hs

theorem pastGate_holdsMaster {pc : KPC} (h : pastGate pc = true) : holdsMaster pc = true := by
  cases pc <;> first | rfl | cases h

theorem inAdmission_holdsMaster {pc : KPC} (h : inAdmission pc = true) :
    holdsMaster pc = true := by
  cases pc <;> first | rfl | cases h

theorem keysmith_lock_all_exclusion {n : Nat} (s : KState n) (hs : KReach s) (t : Fin n) :
    (s.pcs t = .aInCS → s.count = 0)
    ∧ (pastGate (s.pcs t) = true → ∀ u, u ≠ t → inAdmission (s.pcs u) = false)
    ∧ (pastGate (s.pcs t) = true → ∀ s', KStep s s' → s'.count ≤ s.count) := by
  obtain ⟨hM, _, _, _, _, hA⟩ := KInv_reach hs
  have hnoadm : pastGate (s.pcs t) = true → ∀ u, u ≠ t → inAdmission (s.pcs u) = false := by
    intro hg u hut
    by_contra hadm
    have hadm' : inAdmission (s.pcs u) = true := by
      cases h : inAdmission (s.pcs u)
      · exact absurd h hadm
      · rfl
    have h1 := hM u (inAdmission_holdsMaster hadm')
    have h2 := hM t (pastGate_holdsMaster hg)
    exact hut (option_some_eq h1 h2)
  refine ⟨hA t, hnoadm, ?_⟩
  intro hg s' hstep
  cases hstep with
  | admitTask t' k hpc =>
    exfalso
    by_cases hut : t' = t
    · subst hut
      rw [hpc] at hg
      cases hg
    · have := hnoadm hg t' hut
      rw [hpc] at this
      cases this
  | acqMaster t' k hpc hm => simp
  | acqCv t' k hpc hc => simp
  | takeGuardRef t' k hpc => simp
  | acqGuard t' k g hpc hg2 => simp
  | relGuard t' k g hpc => simp
  | exitAcqCv t' k g hpc hc => simp
  | exitDec t' k g hpc => simp
  | aAcqMaster t' hpc hm => simp
  | aAcqCv t' hpc hc => simp
  | aEnter t' hpc hz => simp
  | aWait t' hpc hnz => simp
  | aWake t' hpc hc => simp
  | aExit t' hpc => simp

theorem kD3_reach : KReach kD3 :=
  KReach.step kD2 kD3
    (KReach.step kD1 kD2
      (KReach.step kD0 kD1
        (KReach.init kD0 ⟨rfl, rfl, rfl, rfl, fun _ _ => rfl, fun _ => Or.inr (Or.inl rfl)⟩)
        (KStep.aAcqMaster kD0 0 rfl rfl))
      (KStep.aAcqCv kD1 0 rfl rfl))
    (KStep.aEnter kD2 0 rfl rfl)

theorem keysmith_lock_all_exclusion_witness :
    (kD3.pcs 0 = KPC.aInCS → kD3.count = 0)
    ∧ (pastGate (kD3.pcs 0) = true → ∀ u, u ≠ 0 → inAdmission (kD3.pcs u) = false)
    ∧ (pastGate (kD3.pcs 0) = true → ∀ s', KStep kD3 s' → s'.count ≤ kD3.count) :=
  keysmith_lock_all_exclusion kD3 kD3_reach 0

theorem keysmith_lock_mutual_exclusion :
    (∀ (n : Nat) (s : KState n), KReach s → ∀ (t u : Fin n) (k : Str) (g g' : Nat),
        s.pcs t = KPC.lInCS k g → s.pcs u = KPC.lInCS k g' → t = u)
    ∧ (∃ s2 : KState 2, KReach s2
        ∧ s2.pcs 0 = KPC.lInCS "a".data 1 ∧ s2.pcs 1 = KPC.lInCS "b".data 1) := by
  constructor
  · intro n s hs t u k g g' ht hu
    obtain ⟨_, _, hG, _, hGen, _⟩ := KInv_reach hs
    have hg1 := hGen t k g (Or.inr ht)
    have hg2 := hGen u k g' (Or.inr hu)
    have h1 := hG t k g ht
    have h2 := hG u k g' hu
    rw [hg1] at h1
    rw [hg2] at h2
    exact option_some_eq h1 h2
  · have h0 : KInit kC0 := by
      refine ⟨rfl, rfl, rfl, rfl, fun _ _ => rfl, ?_⟩
      intro t
      fin_cases t
      · exact Or.inl ⟨"a".data, rfl⟩
      · exact Or.inl ⟨"b".data, rfl⟩
    have r0 : KReach kC0 := KReach.init kC0 h0
    have r1 := KReach.step _ _ r0 (KStep.acqMaster kC0 0 "a".data rfl rfl)
    have r2 := KReach.step _ _ r1 (KStep.acqCv _ 0 "a".data rfl rfl)
    have r3 := KReach.step _ _ r2 (KStep.admitTask _ 0 "a".data rfl)
    have r4 := KReach.step _ _ r3 (KStep.takeGuardRef _ 0 "a".data rfl)
    have r5 := KReach.step _ _ r4 (KStep.acqGuard _ 0 "a".data 1 rfl rfl)
    have r6 := KReach.step _ _ r5 (KStep.acqMaster _ 1 "b".data rfl rfl)
    have r7 := KReach.step _ _ r6 (KStep.acqCv _ 1 "b".data rfl rfl)
    have r8 := KReach.step _ _ r7 (KStep.admitTask _ 1 "b".data rfl)
    have r9 := KReach.step _ _ r8 (KStep.takeGuardRef _ 1 "b".data rfl)
    have r10 := KReach.step _ _ r9 (KStep.acqGuard _ 1 "b".data 1 rfl rfl)
    exact ⟨_, r10, rfl, rfl⟩

/-- Spec scenario: keys `a/1`, `a/2`, `b/1` listed with delimiter `/` give no
contents and the common prefixes `a/`, `b/`. -/
example :
    (filter_objects
      [{ key := "a/1".data, etag := [], size := 0, last_modified := 0, content_type := [] },
       { key := "a/2".data, etag := [], size := 0, last_modified := 0, content_type := [] },
       { key := "b/1".data, etag := [], size := 0, last_modified := 0, content_type := [] }]
      none (some "/".data) 1000 none none).common_prefixes = ["a/".data, "b/".data] := by
  decide

/-- Spec scenario: v1 pagination with `max_keys = 2` over three keys sorts
them and reports `next_marker = k2`. -/
example :
    (filter_objects
      [{ key := "k1".data, etag := [], size := 0, last_modified := 0, content_type := [] },
       { key := "k3".data, etag := [], size := 0, last_modified := 0, content_type := [] },
       { key := "k2".data, etag := [], size := 0, last_modified := 0, content_type := [] }]
      none none 2 none none).next_marker = "k2".data := by
  decide

/-- `urllib.parse.quote` percent-encodes a space as `%20`. -/
example : pyQuote "a b".data = "a%20b".data := by decide

end Boxdrive
